import Mathlib

/-!
# Verification of the multi-provider OHLC data-fetch orchestration layer

Shallow embedding of the router / fallback orchestration core of the
repository (crypto router, stock router, Binance / Kraken adapters, interval
mappers, symbol normalizers, pagination and dedup logic) together with
theorems settling the frozen claims about it.

Conventions of the embedding:
* Python strings are embedded as `List Nat` of Unicode code points; the
  string functions (`upper`, `strip`, `split`, `replace`, `endswith`)
  are modelled for the ASCII range, which covers every table entry and
  separator the source manipulates.
* Python floats are embedded as rationals `ℚ`; `int(...)` truncates toward
  zero and `//` is floor division, as in Python.
* Network responses, wall-clock readings and PRNG draws are inputs to the
  embedded functions (environment parameters): the code under analysis is
  deterministic in them.
* Mutable module-level state (provider health maps, last-request times) is
  threaded explicitly.
-/

/-- One canonical OHLCV observation, the repository's cross-component bar
schema `{ts, open, high, low, close, volume}`.  The `open`..`volume` float
fields are embedded as rationals and renamed `op hi lo cl vol` because
`open` is a Lean keyword. -/
structure Bar where
  ts : Int
  op : ℚ
  hi : ℚ
  lo : ℚ
  cl : ℚ
  vol : ℚ
deriving DecidableEq, Repr

/-- Boolean test that a bar list is strictly ascending by timestamp with no
duplicates: `b[i].ts < b[i+1].ts` for all adjacent pairs. -/
def tsStrictAsc : List Bar → Bool
  | [] => true
  | [_] => true
  | a :: b :: rest => decide (a.ts < b.ts) && tsStrictAsc (b :: rest)

/-- Python's truncating conversion `int(q)` of a float/number `q`
(truncation toward zero). -/
def pyInt (q : ℚ) : Int := Int.tdiv q.num (Int.ofNat q.den)

/-- Python's floor division `a // b`. -/
def pyFloorDiv (a b : Int) : Int := Int.fdiv a b

/-- Python's negative-index tail slice `l[-k:]`.  For `k > 0` this is the
last `min k (length l)` elements; for `k = 0` the slice `l[-0:] = l[0:]`
degenerates to the whole list. -/
def pySliceLast (l : List Bar) (k : Nat) : List Bar :=
  if k = 0 then l else l.drop (l.length - k)

/-- The relation `key=lambda x: x["ts"]` sorts by. -/
def tsLe (a b : Bar) : Prop := a.ts ≤ b.ts

instance : DecidableRel tsLe := fun a b => inferInstanceAs (Decidable (a.ts ≤ b.ts))

instance : IsTotal Bar tsLe := ⟨fun a b => Int.le_total a.ts b.ts⟩

instance : IsTrans Bar tsLe := ⟨fun _ _ _ => Int.le_trans⟩

/-- Stable sort ascending by timestamp, the embedding of Python
`sorted(..., key=lambda x: x["ts"])` / `sorted(uniq.keys())`. -/
def sortByTs (l : List Bar) : List Bar := List.insertionSort tsLe l

/-- Overwrite-or-append one binding into a timestamp-keyed association
list, preserving first-insertion key order (Python dict assignment). -/
def dictInsert (m : List (Int × Bar)) (b : Bar) : List (Int × Bar) :=
  if m.any (fun kv => decide (kv.1 = b.ts)) then
    m.map (fun kv => if kv.1 = b.ts then (kv.1, b) else kv)
  else
    m ++ [(b.ts, b)]

/-- The Python dict comprehension `{item["ts"]: item for item in l}`. -/
def buildTsDict (l : List Bar) : List (Int × Bar) := l.foldl dictInsert []

/-- The dedup-and-sort half of the paginated merge: values of the
timestamp-keyed dict, sorted ascending by timestamp
(`sorted(unique_data.values(), key=...)`, equivalently
`[uniq[k] for k in sorted(uniq.keys())]` since each value's `ts` is its
key). -/
def dedupSorted (l : List Bar) : List Bar :=
  sortByTs ((buildTsDict l).map Prod.snd)

/-- The accumulated-page merge shared by `fetch_binance_ohlc_days` (lines
258-262) and `fetch_ohlc_days_kraken` (lines 246-250): when the accumulator
is non-empty, dedup last-write-wins by `ts`, re-sort ascending, then keep
`out[-max_bars:]`. -/
def mergeBars (l : List Bar) (maxBars : Nat) : List Bar :=
  if l = [] then [] else pySliceLast (dedupSorted l) maxBars

/-! ## Interval mappers (`_interval_to_kraken`, `_interval_to_binance`) -/

/-- Embedding of `_interval_to_kraken` (crypto_kraken_rest.py, lines 69-79):
map a requested interval in minutes to a Kraken-supported resolution via an
ascending chain of `if interval <= k` tests, defaulting to 21600. -/
def interval_to_kraken (interval : Int) : Int :=
  if interval ≤ 1 then 1
  else if interval ≤ 5 then 5
  else if interval ≤ 15 then 15
  else if interval ≤ 30 then 30
  else if interval ≤ 60 then 60
  else if interval ≤ 240 then 240
  else if interval ≤ 1440 then 1440
  else if interval ≤ 10080 then 10080
  else 21600

/-- The discrete resolution set (in minutes) Kraken's mapper draws from. -/
def krakenSupported : List Int := [1, 5, 15, 30, 60, 240, 1440, 10080, 21600]

/-- Embedding of `_interval_to_binance` (crypto_binance.py, lines 61-77):
map a requested interval in minutes to a Binance interval code string,
defaulting to `"1M"` (one month). -/
def interval_to_binance (interval : Int) : String :=
  if interval ≤ 1 then "1m"
  else if interval ≤ 3 then "3m"
  else if interval ≤ 5 then "5m"
  else if interval ≤ 15 then "15m"
  else if interval ≤ 30 then "30m"
  else if interval ≤ 60 then "1h"
  else if interval ≤ 120 then "2h"
  else if interval ≤ 240 then "4h"
  else if interval ≤ 360 then "6h"
  else if interval ≤ 480 then "8h"
  else if interval ≤ 720 then "12h"
  else if interval ≤ 1440 then "1d"
  else if interval ≤ 4320 then "3d"
  else if interval ≤ 10080 then "1w"
  else "1M"

/-- Binance interval codes with their duration in minutes (`"1M"` denotes
one month, 30 days = 43200 minutes in Binance's kline semantics). -/
def binanceCodeMinutes : List (String × Int) :=
  [("1m", 1), ("3m", 3), ("5m", 5), ("15m", 15), ("30m", 30), ("1h", 60),
   ("2h", 120), ("4h", 240), ("6h", 360), ("8h", 480), ("12h", 720),
   ("1d", 1440), ("3d", 4320), ("1w", 10080), ("1M", 43200)]

/-- The Binance resolution set of `binanceCodeMinutes`, in minutes. -/
def binanceSupportedMinutes : List Int :=
  [1, 3, 5, 15, 30, 60, 120, 240, 360, 480, 720, 1440, 4320, 10080, 43200]

/-! ## Python string embedding (code points as `List Nat`) -/

/-- Code points of a Lean string literal, the embedding of a Python `str`
constant. -/
def str (s : String) : List Nat := s.data.map Char.toNat

/-- Python `str.upper()` on one ASCII code point. -/
def pyUpperC (n : Nat) : Nat := if 97 ≤ n ∧ n ≤ 122 then n - 32 else n

/-- Python `str.lower()` on one ASCII code point. -/
def pyLowerC (n : Nat) : Nat := if 65 ≤ n ∧ n ≤ 90 then n + 32 else n

/-- Python `s.upper()`. -/
def pyUpper (s : List Nat) : List Nat := s.map pyUpperC

/-- Python `s.lower()`. -/
def pyLower (s : List Nat) : List Nat := s.map pyLowerC

/-- Python `s.replace(c, "")` for a single-character needle: removes every
occurrence. -/
def removeChar (c : Nat) (s : List Nat) : List Nat := s.filter (fun x => x ≠ c)

/-- ASCII whitespace, the class `str.strip()` removes. -/
def isSpaceC (n : Nat) : Bool := n = 32 || n = 9 || n = 10 || n = 13 || n = 11 || n = 12

/-- Python `s.strip()`: drop whitespace from both ends. -/
def pyStrip (s : List Nat) : List Nat :=
  ((s.dropWhile isSpaceC).reverse.dropWhile isSpaceC).reverse

/-- Python `s.split(sep, 1)` restricted to the case `sep in s`: the part
before the first separator and the part after it. -/
def splitFirst (sep : Nat) : List Nat → Option (List Nat × List Nat)
  | [] => none
  | c :: rest =>
      if c = sep then some ([], rest)
      else
        match splitFirst sep rest with
        | none => none
        | some (a, b) => some (c :: a, b)

/-- Python `s.endswith(suffix)`. -/
def pyEndsWith (s suffix : List Nat) : Bool :=
  decide (s.drop (s.length - suffix.length) = suffix) && decide (suffix.length ≤ s.length)

/-- Python `s.replace(needle, repl)`: scan left to right, replacing each
non-overlapping occurrence. -/
def replaceAll (needle repl : List Nat) (s : List Nat) : List Nat :=
  if h : needle = [] then s
  else
    match s with
    | [] => []
    | c :: rest =>
        if needle.isPrefixOf (c :: rest) then
          repl ++ replaceAll needle repl ((c :: rest).drop needle.length)
        else
          c :: replaceAll needle repl rest
termination_by s.length
decreasing_by
  · simp only [List.length_drop, List.length_cons]
    have : 0 < needle.length := List.length_pos.mpr h
    omega
  · simp only [List.length_cons]; omega

/-! ## Symbol normalizers -/

/-- Association lookup on code-point strings (Python dict literal lookup). -/
def assocLookup (k : List Nat) : List (List Nat × List Nat) → Option (List Nat)
  | [] => none
  | (k', v) :: rest => if k = k' then some v else assocLookup k rest

/-- The static alias table of `_to_binance_symbol` (crypto_binance.py,
lines 22-36). -/
def binanceMappings : List (List Nat × List Nat) :=
  [(str "XBTUSD", str "BTCUSDT"), (str "XBTUSDT", str "BTCUSDT"),
   (str "BTCUSD", str "BTCUSDT"), (str "ETHUSD", str "ETHUSDT"),
   (str "ADAUSD", str "ADAUSDT"), (str "SOLUSD", str "SOLUSDT"),
   (str "DOTUSD", str "DOTUSDT"), (str "LINKUSD", str "LINKUSDT"),
   (str "UNIUSD", str "UNIUSDT"), (str "MATICUSD", str "MATICUSDT"),
   (str "AVAXUSD", str "AVAXUSDT"), (str "LTCUSD", str "LTCUSDT"),
   (str "BCHUSD", str "BCHUSDT")]

/-- Embedding of `_to_binance_symbol` (crypto_binance.py, lines 13-59):
uppercase, strip the separators `/ - _`, consult the alias table, map a
`USD` suffix to `USDT`, and otherwise reassemble slash-delimited pairs by
concatenation with the `USD -> USDT` quote substitution. -/
def to_binance_symbol (symbol : List Nat) : List Nat :=
  if symbol = [] then []
  else
    let s := removeChar 95 (removeChar 45 (removeChar 47 (pyUpper symbol)))
    match assocLookup s binanceMappings with
    | some v => v
    | none =>
        if pyEndsWith s (str "USD") && !(pyEndsWith s (str "USDT")) then
          replaceAll (str "USD") (str "USDT") s
        else if 47 ∈ symbol then
          match splitFirst 47 symbol with
          | some (b, q) =>
              let base := pyStrip (pyUpper b)
              let quote := pyStrip (pyUpper q)
              base ++ (if quote = str "USD" then str "USDT" else quote)
          | none => s
        else s

/-- Embedding of `_to_kraken_pair` (crypto_kraken_rest.py, lines 9-58). -/
def to_kraken_pair (symbol : List Nat) : List Nat :=
  if symbol = [] then []
  else
    let s := removeChar 47 (removeChar 45 (pyUpper symbol))
    if s ∈ [str "BTCUSD", str "XBTUSD", str "BTC/USD", str "XBT/USD"] then str "XBTUSD"
    else if s ∈ [str "BTCEUR", str "XBTEUR", str "BTC/EUR", str "XBT/EUR"] then str "XBTEUR"
    else if s ∈ [str "ETHUSD", str "ETH/USD"] then str "ETHUSD"
    else if s ∈ [str "ETHEUR", str "ETH/EUR"] then str "ETHEUR"
    else if s ∈ [str "ETHBTC", str "ETH/BTC", str "ETHXBT", str "ETH/XBT"] then str "ETHXBT"
    else if s ∈ [str "ADAUSD", str "ADA/USD"] then str "ADAUSD"
    else if s ∈ [str "DOTUSD", str "DOT/USD"] then str "DOTUSD"
    else if s ∈ [str "SOLUSD", str "SOL/USD"] then str "SOLUSD"
    else if s ∈ [str "LINKUSD", str "LINK/USD"] then str "LINKUSD"
    else if s ∈ [str "UNIUSD", str "UNI/USD"] then str "UNIUSD"
    else if s ∈ [str "MATICUSD", str "MATIC/USD"] then str "MATICUSD"
    else if 47 ∈ symbol then
      match splitFirst 47 symbol with
      | some (b, q) =>
          let base := pyStrip (pyUpper b)
          let quote := pyStrip (pyUpper q)
          base ++ (if quote = str "BTC" then str "XBT" else quote)
      | none => s
    else s

/-- Embedding of Kraken's `_is_valid_symbol` (crypto_kraken_rest.py, lines
60-67): length at least 3 and, after uppercasing, only `A`-`Z`, `0`-`9`
and `/`. -/
def kraken_is_valid_symbol (symbol : List Nat) : Bool :=
  if symbol.length < 3 then false
  else (pyUpper symbol).all fun c =>
    (65 ≤ c && c ≤ 90) || (48 ≤ c && c ≤ 57) || c = 47

/-- One uppercase ASCII letter, the regex class `[A-Z]`. -/
def isUpperAlpha (c : Nat) : Bool := 65 ≤ c && c ≤ 90

/-- The part of a string before its first `sep` (Python `s.split(sep)[0]`). -/
def beforeFirst (sep : Nat) (s : List Nat) : List Nat :=
  match splitFirst sep s with
  | some (a, _) => a
  | none => s

/-- The combined `ALL_US_STOCKS = US_STOCK_SYMBOLS | POPULAR_SMALL_MID_CAPS`
symbol set of stocks_router.py (lines 27-81), in order of appearance. -/
def ALL_US_STOCKS : List (List Nat) :=
  [str "AAPL", str "GOOGL", str "GOOG", str "AMZN", str "META", str "MSFT", str "NFLX", 
   str "NVDA", str "TSLA", str "ADBE", str "CRM", str "ORCL", str "IBM", str "INTC", str "AMD", 
   str "QCOM", str "CSCO", str "NOW", str "PYPL", str "SQ", str "SPOT", str "UBER", str "LYFT", 
   str "ZOOM", str "DOCU", str "ROKU", str "TWTR", str "SNAP", str "PINS", str "SHOP", 
   str "JPM", str "BAC", str "WFC", str "GS", str "MS", str "C", str "AXP", str "V", str "MA", 
   str "BRK.A", str "BRK.B", str "BLK", str "SCHW", str "USB", str "PNC", str "TFC", str "COF", 
   str "DFS", str "SYF", str "PYPL", str "JNJ", str "PFE", str "ABT", str "LLY", str "MRK", 
   str "TMO", str "DHR", str "BMY", str "AZN", str "NVS", str "UNH", str "CVS", str "ANTM", 
   str "CI", str "HUM", str "GILD", str "AMGN", str "BIIB", str "REGN", str "VRTX", str "MRNA", 
   str "BA", str "CAT", str "DE", str "GE", str "HON", str "MMM", str "UTX", str "RTX", 
   str "LMT", str "NOC", str "GD", str "TXT", str "EMR", str "ETN", str "PH", str "ROK", 
   str "DOV", str "ITW", str "CMI", str "FTV", str "WMT", str "HD", str "PG", str "KO", 
   str "PEP", str "NKE", str "MCD", str "SBUX", str "DIS", str "COST", str "TGT", str "LOW", 
   str "TJX", str "ROST", str "ULTA", str "LULU", str "RH", str "BBY", str "ETSY", str "W", 
   str "CHWY", str "XOM", str "CVX", str "COP", str "SLB", str "EOG", str "PXD", str "KMI", 
   str "WMB", str "OKE", str "VLO", str "MPC", str "PSX", str "HES", str "DVN", str "FANG", 
   str "NEE", str "DUK", str "SO", str "D", str "AEP", str "EXC", str "XEL", str "AMT", 
   str "PLD", str "CCI", str "EQIX", str "SPG", str "O", str "WELL", str "AVB", str "EQR", 
   str "UDR", str "ESS", str "MAA", str "CPT", str "AIV", str "EXR", str "PSA", str "CUBE", 
   str "LIFE", str "ACC", str "PEAK", str "SPY", str "QQQ", str "IWM", str "DIA", str "VTI", 
   str "VTV", str "VUG", str "VOO", str "VEA", str "VWO", str "BND", str "IEFA", str "IEMG", 
   str "AGG", str "LQD", str "HYG", str "JNK", str "TIP", str "VTEB", str "MUB", str "SHY", 
   str "IEF", str "TLT", str "NEM", str "FCX", str "VALE", str "RIO", str "BHP", str "AA", 
   str "X", str "CLF", str "NUE", str "STLD", str "RS", str "CF", str "MOS", str "FMC", 
   str "LIN", str "APD", str "ECL", str "SHW", str "PPG", str "NTR", str "IFF", str "UPS", 
   str "FDX", str "LUV", str "DAL", str "AAL", str "UAL", str "ALK", str "JBLU", str "SAVE", 
   str "CSX", str "UNP", str "NSC", str "KSU", str "CP", str "CNI", str "CHRW", str "EXPD", 
   str "XPO", str "ODFL", str "SAIA", str "T", str "VZ", str "TMUS", str "CHTR", str "CMCSA", 
   str "DIS", str "NFLX", str "FOXA", str "FOX", str "CBS", str "VIAC", str "DISC", 
   str "DISCA", str "DISCK", str "WBD", str "PARA", str "LYV", str "MSG", str "MSGS", 
   str "RBLX", str "PLTR", str "BB", str "NOK", str "AMC", str "GME", str "WISH", str "CLOV", 
   str "SPCE", str "DKNG", str "PENN", str "MGM", str "WYNN", str "LVS", str "CZR", str "BYD", 
   str "F", str "GM", str "LCID", str "RIVN", str "NIO", str "XPEV", str "LI"]

/-- Embedding of `_is_valid_stock_symbol` (stocks_router.py, lines
259-280): non-empty; the part of the uppercased symbol before the first
`.` must be a known US stock or match `^[A-Z]{1,5}$`, or the whole
uppercased symbol must match `^[A-Z]{1,4}\\.[A-Z]$`. -/
def is_valid_stock_symbol (symbol : List Nat) : Bool :=
  if symbol.length < 1 then false
  else
    let up := pyUpper symbol
    let clean := beforeFirst 46 up
    if clean ∈ ALL_US_STOCKS then true
    else if decide (1 ≤ clean.length) && decide (clean.length ≤ 5) && clean.all isUpperAlpha then
      true
    else
      match splitFirst 46 up with
      | some (a, b) =>
          decide (1 ≤ a.length) && decide (a.length ≤ 4) && a.all isUpperAlpha &&
            decide (b.length = 1) && b.all isUpperAlpha
      | none => false

/-! ## Binance adapter (`crypto_binance.py`) -/

/-- Upstream response of one Binance `/klines` REST call, as seen after
JSON decoding: a list payload, a non-list payload, or any transport/HTTP
failure (all of which the adapter turns into `[]`). -/
inductive BinanceResp where
  | ok (payload : List (List ℚ))
  | notList
  | httpError
deriving Repr

/-- The record-mapping loop of `fetch_binance_ohlc` (crypto_binance.py,
lines 181-198): candles with fewer than 6 fields are skipped, the rest are
mapped in payload order to canonical bars with
`ts = int(candle[0]) // 1000`.  There is no sort. -/
def parse_binance_klines (payload : List (List ℚ)) : List Bar :=
  payload.filterMap fun candle =>
    if candle.length < 6 then none
    else some { ts := pyFloorDiv (pyInt (candle.getD 0 0)) 1000,
                op := candle.getD 1 0, hi := candle.getD 2 0,
                lo := candle.getD 3 0, cl := candle.getD 4 0,
                vol := candle.getD 5 0 }

/-- Embedding of `fetch_binance_ohlc` (crypto_binance.py, lines 143-214).
`interval` and `limit` only shape the upstream request (the response is the
`resp` input); every failure path returns `[]`, success returns the parsed
payload in payload order. -/
def fetch_binance_ohlc (symbol : List Nat) (interval : Int) (limit : Nat)
    (resp : BinanceResp) : List Bar :=
  if to_binance_symbol symbol = [] then []
  else
    match interval, limit, resp with
    | _, _, BinanceResp.ok payload => parse_binance_klines payload
    | _, _, BinanceResp.notList => []
    | _, _, BinanceResp.httpError => []

/-- The page loop of `fetch_binance_ohlc_days` (crypto_binance.py, lines
236-256), instrumented with the number of upstream calls actually issued:
run up to `requests_needed` iterations; stop early when the remaining
`limit` hits zero or a page comes back empty; accumulate pages in fetch
order. -/
def binanceDaysLoop (env : Nat → BinanceResp) (symbol : List Nat)
    (interval : Int) (total : Nat) :
    Nat → Nat → List Bar → List Bar × Nat
  | 0, _, acc => (acc, 0)
  | fuel + 1, i, acc =>
      let limit := min 1000 (total - acc.length)
      if limit = 0 then (acc, 0)
      else
        let batch := fetch_binance_ohlc symbol interval limit (env i)
        if batch = [] then (acc, 1)
        else
          let r := binanceDaysLoop env symbol interval total fuel (i + 1) (acc ++ batch)
          (r.1, r.2 + 1)

/-- Embedding of `fetch_binance_ohlc_days` (crypto_binance.py, lines
216-265): compute `bars_per_day = 1440 // interval` (a `ZeroDivisionError`
for `interval = 0`, modelled as `Except.error`), cap the target at
`max_bars`, loop over at most `(total + 999) // 1000` pages, then dedup
last-write-wins by timestamp, sort, and keep `all_data[-max_bars:]`.
The second component counts pages fetched (instrumentation for the
termination claim). -/
def fetch_binance_ohlc_days (env : Nat → BinanceResp) (symbol : List Nat)
    (interval days maxBars : Nat) : Except Unit (List Bar × Nat) :=
  if interval = 0 then Except.error ()
  else
    let barsPerDay := (24 * 60) / interval
    let totalBarsNeeded := min (days * barsPerDay) maxBars
    let requestsNeeded := (totalBarsNeeded + 999) / 1000
    let r := binanceDaysLoop env symbol (Int.ofNat interval) totalBarsNeeded requestsNeeded 0 []
    Except.ok (mergeBars r.1 maxBars, r.2)

/-! ## Kraken REST adapter (`crypto_kraken_rest.py`) -/

/-- Upstream response of one Kraken OHLC page: transport/HTTP failure,
provider-reported error body, or a decoded result carrying an optional
OHLC series and the optional `last` pagination cursor. -/
inductive KrakenPage where
  | httpError
  | apiError
  | page (series : Option (List (List ℚ))) (lastField : Option Int)
deriving Repr

/-- The row-mapping loop of `fetch_ohlc_days_kraken` (lines 206-219): rows
with at least 7 fields become bars (`ts = int(float(row[0]))`, volume from
`row[6]`), the rest are skipped. -/
def parse_kraken_rows (s : List (List ℚ)) : List Bar :=
  s.filterMap fun row =>
    if row.length ≥ 7 then
      some { ts := pyInt (row.getD 0 0), op := row.getD 1 0,
             hi := row.getD 2 0, lo := row.getD 3 0, cl := row.getD 4 0,
             vol := row.getD 6 0 }
    else none

/-- The pagination loop of `fetch_ohlc_days_kraken` (lines 181-241),
instrumented with the number of pages fetched.  A page is consumed each
attempt; HTTP or API errors break; a truthy series is appended and then
the `len(out) >= max_bars` cap checked; a missing, zero, or non-advancing
`last` cursor breaks; otherwise the cursor advances and the loop continues
within the 20-attempt fuel. -/
def krakenDaysLoop (env : Nat → KrakenPage) (maxBars : Nat) :
    Nat → Nat → Int → List Bar → List Bar × Nat
  | 0, _, _, out => (out, 0)
  | fuel + 1, attempt, last, out =>
      match env attempt with
      | KrakenPage.httpError => (out, 1)
      | KrakenPage.apiError => (out, 1)
      | KrakenPage.page series lastF =>
          let seriesTruthy : Bool := match series with
            | some s => decide (s ≠ ([] : List (List ℚ)))
            | none => false
          let out' := match series with
            | some s => if s ≠ [] then out ++ parse_kraken_rows s else out
            | none => out
          if seriesTruthy && decide (out'.length ≥ maxBars) then (out', 1)
          else
            match lastF with
            | none => (out', 1)
            | some v =>
                if v = 0 ∨ v = last then (out', 1)
                else
                  let r := krakenDaysLoop env maxBars fuel (attempt + 1) v out'
                  (r.1, r.2 + 1)

/-- Embedding of `fetch_ohlc_days_kraken` (crypto_kraken_rest.py, lines
156-256): validate the symbol and pair, compute `since = now - days*86400`,
run the 20-attempt pagination loop, then dedup last-write-wins by
timestamp, sort ascending, and keep `out[-max_bars:]`.  The second
component counts pages fetched. -/
def fetch_ohlc_days_kraken (env : Nat → KrakenPage) (symbol : List Nat)
    (interval : Int) (now : Int) (days : Nat) (maxBars : Nat) :
    List Bar × Nat :=
  if ¬ kraken_is_valid_symbol symbol then ([], 0)
  else if to_kraken_pair symbol = [] then ([], 0)
  else
    let _intr := interval_to_kraken interval
    let since := now - days * 86400
    let r := krakenDaysLoop env maxBars 20 0 since []
    (mergeBars r.1 maxBars, r.2)

/-! ## Crypto router (`crypto_router.py`) -/

/-- The static provider priority order of crypto_router.py, line 11. -/
def PROVIDER_PRIORITY : List String := ["binance", "kraken", "coinbase", "yfinance"]

/-- The outcome of each provider-specific branch of `_fetch_from_provider`
for the current request: `Except.error` stands for a raised exception
(re-raised by `_fetch_from_provider`), `Except.ok` for a returned bar
list.  The `yfinance` branch (`_fetch_yfinance_crypto`) catches all its
exceptions and returns a list, so it is a plain list. -/
structure CryptoAdapters where
  binance : Except Unit (List Bar)
  kraken : Except Unit (List Bar)
  coinbase : Except Unit (List Bar)
  yfinance : List Bar

/-- A provider health map, Python's `PROVIDER_HEALTH.get(p, True)` view of
the process-wide dict (missing keys read as healthy). -/
def Health : Type := String → Bool

/-- The dict assignment `PROVIDER_HEALTH[prov] = True`. -/
def setHealthy (h : Health) (p : String) : Health :=
  fun q => if q = p then true else h q

/-- The data behaviour of `_fetch_from_provider` (crypto_router.py, lines
56-99): dispatch on the provider name, re-raising adapter exceptions;
unknown names raise `ValueError`. -/
def fetch_from_provider (env : CryptoAdapters) (provider : String) :
    Except Unit (List Bar) :=
  if provider = "binance" then env.binance
  else if provider = "kraken" then env.kraken
  else if provider = "coinbase" then env.coinbase
  else if provider = "yfinance" then Except.ok env.yfinance
  else Except.error ()

/-- The auto-mode candidate loop of `fetch_history_crypto` (lines 31-54):
try each healthy candidate in order; a raised fetch is swallowed and the
next candidate tried; the first non-empty result marks its provider
healthy and is returned at once; empty results continue; exhaustion
returns `[]`. -/
def cryptoTryProviders (env : CryptoAdapters) :
    List String → Health → Except Unit (List Bar) × Health
  | [], h => (Except.ok [], h)
  | p :: rest, h =>
      match fetch_from_provider env p with
      | Except.error _ => cryptoTryProviders env rest h
      | Except.ok data =>
          if data ≠ [] then (Except.ok data, setHealthy h p)
          else cryptoTryProviders env rest h

/-- Embedding of `fetch_history_crypto` (crypto_router.py, lines 18-54):
an explicit provider is dispatched directly with its literal outcome and
untouched health; `"auto"` filters the priority list to healthy providers
and runs the candidate loop. -/
def fetch_history_crypto (env : CryptoAdapters) (health : Health)
    (provider : String) : Except Unit (List Bar) × Health :=
  if provider ≠ "auto" then (fetch_from_provider env provider, health)
  else cryptoTryProviders env (PROVIDER_PRIORITY.filter health) health

/-- Embedding of `get_provider_health` (lines 154-156): a by-value snapshot
of the health map. -/
def get_provider_health (h : Health) : Health := h

/-- Embedding of `reset_provider_health` (lines 158-162): replace the map
by `{p: True for p in PROVIDER_PRIORITY}`, which under the `get(p, True)`
read convention is the all-healthy map. -/
def reset_provider_health : Health := fun _ => true

/-- One health-mutating router operation of crypto_router.py. -/
inductive CryptoRouterOp where
  | fetch (env : CryptoAdapters) (provider : String)
  | reset

/-- Effect of one crypto router operation on the health map. -/
def cryptoStep (h : Health) : CryptoRouterOp → Health
  | CryptoRouterOp.fetch env provider => (fetch_history_crypto env h provider).2
  | CryptoRouterOp.reset => reset_provider_health

/-- A whole process history of crypto router operations. -/
def cryptoRun (ops : List CryptoRouterOp) (h : Health) : Health :=
  ops.foldl cryptoStep h

/-! ## Stock router (`stocks_router.py`) -/

/-- The static stock provider priority order, stocks_router.py line 23. -/
def STOCK_PROVIDER_PRIORITY : List String :=
  ["polygon", "yfinance_improved", "finnhub", "alpaca", "yfinance", "alpha_vantage"]

/-- Outcomes of the provider branches of `_fetch_from_stock_provider` for
the current request (`Except.error` = raised, re-raised by the
dispatcher). -/
structure StockAdapters where
  polygon : Except Unit (List Bar)
  yfinance_improved : Except Unit (List Bar)
  finnhub : Except Unit (List Bar)
  alpaca : Except Unit (List Bar)
  yfinance : Except Unit (List Bar)
  alpha_vantage : Except Unit (List Bar)

/-- The data behaviour of `_fetch_from_stock_provider` (stocks_router.py,
lines 149-182): dispatch on the provider name, re-raising adapter
exceptions; unknown names raise `ValueError`.  The function contains no
rate limiting. -/
def fetch_from_stock_provider (env : StockAdapters) (provider : String) :
    Except Unit (List Bar) :=
  if provider = "yfinance_improved" then env.yfinance_improved
  else if provider = "finnhub" then env.finnhub
  else if provider = "polygon" then env.polygon
  else if provider = "alpaca" then env.alpaca
  else if provider = "yfinance" then env.yfinance
  else if provider = "alpha_vantage" then env.alpha_vantage
  else Except.error ()

/-- Inputs of `generate_realistic_ohlcv` (mock_stock_data.py) that come
from outside the algorithm: the wall-clock-derived session close timestamp
and the per-bar price/volume draws of the symbol-seeded PRNG (already
rounded). -/
structure MockDraws where
  marketClose : Int
  op : Nat → ℚ
  hi : Nat → ℚ
  lo : Nat → ℚ
  cl : Nat → ℚ
  vol : Nat → ℚ

/-- Embedding of `generate_realistic_ohlcv` (mock_stock_data.py, lines
10-116): one bar per loop index `i in range(count)`, with
`ts = current_time + i * interval * 60` and the drawn OHLCV payload.  The
`symbol` argument seeds the draws, which are supplied in `draws`. -/
def generate_realistic_ohlcv (draws : MockDraws) (symbol : List Nat)
    (interval count : Nat) : List Bar :=
  match symbol with
  | _ =>
      (List.range count).map fun i =>
        { ts := draws.marketClose + Int.ofNat (i * interval * 60),
          op := draws.op i, hi := draws.hi i, lo := draws.lo i,
          cl := draws.cl i, vol := draws.vol i }

/-- The `bars_needed` computation of the stock router's mock fallback
(stocks_router.py, lines 133-138). -/
def stock_bars_needed (interval days : Nat) : Nat :=
  if interval < 1440 then min (days * (390 / interval)) 1000
  else min days 1000

/-- The mock-data final fallback of `fetch_stock_history` (lines 127-147):
for intraday intervals `interval = 0` raises `ZeroDivisionError` inside the
`try` and falls through to `[]`; otherwise the generated series is
returned when truthy, else `[]`. -/
def stockMockFallback (draws : MockDraws) (symbol : List Nat)
    (interval days : Nat) : List Bar :=
  if interval = 0 then []
  else
    let mock := generate_realistic_ohlcv draws symbol interval
      (stock_bars_needed interval days)
    if mock ≠ [] then mock else []

/-- The auto-mode candidate loop of `fetch_stock_history` (lines 109-123)
followed by the mock fallback on exhaustion (lines 125-147). -/
def stockTryProviders (env : StockAdapters) (draws : MockDraws)
    (symbol : List Nat) (interval days : Nat) :
    List String → Health → Except Unit (List Bar) × Health
  | [], h => (Except.ok (stockMockFallback draws symbol interval days), h)
  | p :: rest, h =>
      match fetch_from_stock_provider env p with
      | Except.error _ => stockTryProviders env draws symbol interval days rest h
      | Except.ok data =>
          if data ≠ [] then (Except.ok data, setHealthy h p)
          else stockTryProviders env draws symbol interval days rest h

/-- Embedding of `fetch_stock_history` (stocks_router.py, lines 83-147):
reject invalid symbols with `[]` before anything else; dispatch an explicit
provider directly with its literal outcome; in `"auto"` mode run the
healthy candidates in priority order and fall back to mock data. -/
def fetch_stock_history (env : StockAdapters) (draws : MockDraws)
    (health : Health) (symbol : List Nat) (interval days : Nat)
    (provider : String) : Except Unit (List Bar) × Health :=
  if ¬ is_valid_stock_symbol symbol then (Except.ok [], health)
  else if provider ≠ "auto" then (fetch_from_stock_provider env provider, health)
  else stockTryProviders env draws symbol interval days
    (STOCK_PROVIDER_PRIORITY.filter health) health

/-- One health-mutating stock router operation. -/
inductive StockRouterOp where
  | fetch (env : StockAdapters) (draws : MockDraws) (symbol : List Nat)
      (interval days : Nat) (provider : String)

/-- Effect of one stock router operation on the health map. -/
def stockStep (h : Health) : StockRouterOp → Health
  | StockRouterOp.fetch env draws symbol interval days provider =>
      (fetch_stock_history env draws h symbol interval days provider).2

/-- A whole process history of stock router operations. -/
def stockRun (ops : List StockRouterOp) (h : Health) : Health :=
  ops.foldl stockStep h

/-! ## Request spacing (`_fetch_from_provider`, crypto_router.py 56-68) -/

/-- The per-provider minimum spacing `MIN_REQUEST_INTERVAL = 2.0` of
crypto_router.py, line 16. -/
def MIN_REQUEST_INTERVAL : ℚ := 2

/-- The cooperative delay inserted before a crypto provider request: if
less than the minimum interval has elapsed since the provider's last
request, sleep for the remainder (crypto_router.py, lines 60-66). -/
def rate_limit_wait (now last : ℚ) : ℚ :=
  if now - last < MIN_REQUEST_INTERVAL then MIN_REQUEST_INTERVAL - (now - last) else 0

/-- The wall-clock time at which the upstream crypto request is issued and
`LAST_REQUEST_TIME[provider]` is re-recorded (line 68): the arrival time
plus the enforced wait. -/
def crypto_issue_time (now last : ℚ) : ℚ := now + rate_limit_wait now last

/-- The wall-clock time at which `_fetch_from_stock_provider` issues its
upstream request: stocks_router.py has no `LAST_REQUEST_TIME` bookkeeping
and no sleep, so the request goes out at the arrival time. -/
def stock_issue_time (now : ℚ) : ℚ := now

/-! ## Lemmas: last-write-wins dict and the sorted merge -/

/-- The last bar in `l` carrying timestamp `t`: the bar contributed by the
latest-fetched page that contains `t`. -/
def lastBarAt (l : List Bar) (t : Int) : Option Bar :=
  l.reverse.find? (fun b => decide (b.ts = t))

/-- Lookup in a timestamp-keyed association list. -/
def dictFind (m : List (Int × Bar)) (t : Int) : Option Bar :=
  (m.find? (fun kv => decide (kv.1 = t))).map Prod.snd

theorem lastBarAt_nil (t : Int) : lastBarAt [] t = none := rfl

theorem lastBarAt_cons (b : Bar) (l : List Bar) (t : Int) :
    lastBarAt (b :: l) t =
      Option.or (lastBarAt l t) (if b.ts = t then some b else none) := by
  unfold lastBarAt
  rw [List.reverse_cons, List.find?_append]
  cases hfind : List.find? (fun b => decide (b.ts = t)) l.reverse with
  | none =>
      simp only [Option.or, List.find?]
      split <;> simp_all
  | some x => simp [Option.or]

theorem lastBarAt_eq_none_iff (l : List Bar) (t : Int) :
    lastBarAt l t = none ↔ t ∉ l.map Bar.ts := by
  unfold lastBarAt
  rw [List.find?_eq_none]
  constructor
  · intro h hmem
    rcases List.mem_map.mp hmem with ⟨b, hb, hts⟩
    exact absurd (by simpa using hts) (by simpa using h b (List.mem_reverse.mpr hb))
  · intro h b hb hts
    exact h (List.mem_map.mpr ⟨b, List.mem_reverse.mp hb, by simpa using hts⟩)

theorem find?_overwrite_self (m : List (Int × Bar)) (b : Bar)
    (h : m.any (fun kv => decide (kv.1 = b.ts)) = true) :
    (m.map (fun kv => if kv.1 = b.ts then (kv.1, b) else kv)).find?
        (fun kv => decide (kv.1 = b.ts)) = some (b.ts, b) := by
  induction m with
  | nil => simp at h
  | cons kv m' ih =>
      rw [List.map_cons]
      by_cases hk : kv.1 = b.ts
      · rw [if_pos hk, List.find?_cons_of_pos _ (by simpa using hk), hk]
      · have h' : (m'.any fun kv => decide (kv.1 = b.ts)) = true := by
          simpa [hk] using h
        rw [if_neg hk, List.find?_cons_of_neg _ (by simpa using hk)]
        exact ih h'

theorem find?_overwrite_other (m : List (Int × Bar)) (b : Bar) (t : Int)
    (ht : t ≠ b.ts) :
    (m.map (fun kv => if kv.1 = b.ts then (kv.1, b) else kv)).find?
        (fun kv => decide (kv.1 = t)) =
      m.find? (fun kv => decide (kv.1 = t)) := by
  induction m with
  | nil => rfl
  | cons kv m' ih =>
      rw [List.map_cons]
      by_cases hkb : kv.1 = b.ts
      · have hk : ¬ kv.1 = t := by
          intro hh
          exact ht (by rw [← hh, hkb])
        rw [if_pos hkb, List.find?_cons_of_neg _ (by simpa using hk),
          List.find?_cons_of_neg _ (by simpa using hk), ih]
      · rw [if_neg hkb]
        by_cases hk : kv.1 = t
        · rw [List.find?_cons_of_pos _ (by simpa using hk),
            List.find?_cons_of_pos _ (by simpa using hk)]
        · rw [List.find?_cons_of_neg _ (by simpa using hk),
            List.find?_cons_of_neg _ (by simpa using hk), ih]

theorem dictFind_dictInsert_self (m : List (Int × Bar)) (b : Bar) :
    dictFind (dictInsert m b) b.ts = some b := by
  unfold dictFind dictInsert
  by_cases h : m.any (fun kv => decide (kv.1 = b.ts)) = true
  · rw [if_pos h, find?_overwrite_self m b h]; rfl
  · rw [if_neg h, List.find?_append]
    have hnone : m.find? (fun kv => decide (kv.1 = b.ts)) = none := by
      rw [List.find?_eq_none]
      intro kv hkv hd
      exact h (List.any_eq_true.mpr ⟨kv, hkv, hd⟩)
    rw [hnone]
    simp [List.find?]

theorem dictFind_dictInsert_other (m : List (Int × Bar)) (b : Bar) (t : Int)
    (ht : t ≠ b.ts) :
    dictFind (dictInsert m b) t = dictFind m t := by
  unfold dictFind dictInsert
  by_cases h : m.any (fun kv => decide (kv.1 = b.ts)) = true
  · rw [if_pos h, find?_overwrite_other m b t ht]
  · rw [if_neg h, List.find?_append]
    cases hfind : m.find? (fun kv => decide (kv.1 = t)) with
    | some kv => rfl
    | none =>
        have hbt : ¬ b.ts = t := fun hh => ht hh.symm
        simp [List.find?, hbt]

theorem dictFind_foldl (l : List Bar) :
    ∀ (m : List (Int × Bar)) (t : Int),
      dictFind (List.foldl dictInsert m l) t =
        Option.or (lastBarAt l t) (dictFind m t) := by
  induction l with
  | nil => intro m t; simp [lastBarAt, Option.or]
  | cons b rest ih =>
      intro m t
      rw [List.foldl_cons, ih, lastBarAt_cons]
      cases hlast : lastBarAt rest t with
      | some x => simp [Option.or]
      | none =>
          by_cases hb : b.ts = t
          · subst hb
            simp [Option.or, dictFind_dictInsert_self]
          · have ht : t ≠ b.ts := fun hh => hb hh.symm
            simp [Option.or, hb, dictFind_dictInsert_other m b t ht]

theorem buildTsDict_find (l : List Bar) (t : Int) :
    dictFind (buildTsDict l) t = lastBarAt l t := by
  unfold buildTsDict
  rw [dictFind_foldl]
  cases lastBarAt l t <;> rfl

theorem keys_overwrite (m : List (Int × Bar)) (b : Bar) :
    (m.map (fun kv => if kv.1 = b.ts then (kv.1, b) else kv)).map Prod.fst =
      m.map Prod.fst := by
  induction m with
  | nil => rfl
  | cons kv m' ih =>
      by_cases hk : kv.1 = b.ts <;> simp [hk, ih]

theorem keys_dictInsert_nodup (m : List (Int × Bar)) (b : Bar)
    (hnd : (m.map Prod.fst).Nodup) :
    ((dictInsert m b).map Prod.fst).Nodup := by
  unfold dictInsert
  by_cases h : m.any (fun kv => decide (kv.1 = b.ts)) = true
  · rw [if_pos h, keys_overwrite]; exact hnd
  · rw [if_neg h, List.map_append]
    have hnot : b.ts ∉ m.map Prod.fst := by
      intro hmem
      rcases List.mem_map.mp hmem with ⟨kv, hkv, hfst⟩
      exact h (List.any_eq_true.mpr ⟨kv, hkv, by simp [hfst]⟩)
    simp only [List.map_cons, List.map_nil]
    exact List.Nodup.append hnd (List.nodup_singleton _)
      (by
        intro t ht1 ht2
        simp only [List.mem_singleton] at ht2
        exact hnot (ht2 ▸ ht1))

theorem entries_ts_dictInsert (m : List (Int × Bar)) (b : Bar)
    (h : ∀ kv ∈ m, Bar.ts kv.2 = kv.1) :
    ∀ kv ∈ dictInsert m b, Bar.ts kv.2 = kv.1 := by
  unfold dictInsert
  by_cases hany : m.any (fun kv => decide (kv.1 = b.ts)) = true
  · rw [if_pos hany]
    intro kv hkv
    rcases List.mem_map.mp hkv with ⟨kv₀, hkv₀, hmap⟩
    by_cases hk : kv₀.1 = b.ts
    · rw [if_pos hk] at hmap
      rw [← hmap]
      simpa using hk.symm
    · rw [if_neg hk] at hmap
      exact hmap ▸ h kv₀ hkv₀
  · rw [if_neg hany]
    intro kv hkv
    rcases List.mem_append.mp hkv with hin | hin
    · exact h kv hin
    · simp only [List.mem_singleton] at hin
      subst hin; rfl

theorem keys_buildTsDict_nodup (l : List Bar) :
    ((buildTsDict l).map Prod.fst).Nodup := by
  unfold buildTsDict
  have main : ∀ (l : List Bar) (m : List (Int × Bar)),
      (m.map Prod.fst).Nodup → ((List.foldl dictInsert m l).map Prod.fst).Nodup := by
    intro l
    induction l with
    | nil => intro m hm; exact hm
    | cons b rest ih =>
        intro m hm
        rw [List.foldl_cons]
        exact ih _ (keys_dictInsert_nodup m b hm)
  exact main l [] (by simp)

theorem entries_ts_buildTsDict (l : List Bar) :
    ∀ kv ∈ buildTsDict l, Bar.ts kv.2 = kv.1 := by
  unfold buildTsDict
  have main : ∀ (l : List Bar) (m : List (Int × Bar)),
      (∀ kv ∈ m, Bar.ts kv.2 = kv.1) →
      ∀ kv ∈ List.foldl dictInsert m l, Bar.ts kv.2 = kv.1 := by
    intro l
    induction l with
    | nil => intro m hm; exact hm
    | cons b rest ih =>
        intro m hm
        rw [List.foldl_cons]
        exact ih _ (entries_ts_dictInsert m b hm)
  exact main l [] (by simp)

theorem find?_of_mem_nodupKeys (m : List (Int × Bar))
    (hnd : (m.map Prod.fst).Nodup) (kv : Int × Bar) (hkv : kv ∈ m) :
    m.find? (fun x => decide (x.1 = kv.1)) = some kv := by
  induction m with
  | nil => cases hkv
  | cons kv' m' ih =>
      rcases List.mem_cons.mp hkv with heq | hin
      · subst heq
        exact List.find?_cons_of_pos _ (by simp)
      · have hnd' : (kv'.1 :: m'.map Prod.fst).Nodup := by
          rw [List.map_cons] at hnd; exact hnd
        have hne : ¬ kv'.1 = kv.1 := by
          intro hh
          have hk1 : kv.1 ∈ m'.map Prod.fst := List.mem_map.mpr ⟨kv, hin, rfl⟩
          exact (List.nodup_cons.mp hnd').1 (hh ▸ hk1)
        rw [List.find?_cons_of_neg _ (by simpa using hne)]
        exact ih (List.nodup_cons.mp hnd').2 hin

theorem lastBarAt_of_mem_buildTsDict (l : List Bar) (kv : Int × Bar)
    (hkv : kv ∈ buildTsDict l) : lastBarAt l kv.1 = some kv.2 := by
  rw [← buildTsDict_find]
  unfold dictFind
  rw [find?_of_mem_nodupKeys _ (keys_buildTsDict_nodup l) kv hkv]
  rfl

theorem mem_keys_buildTsDict (l : List Bar) (t : Int) :
    t ∈ (buildTsDict l).map Prod.fst ↔ t ∈ l.map Bar.ts := by
  constructor
  · intro h
    rcases List.mem_map.mp h with ⟨kv, hkv, hfst⟩
    have := lastBarAt_of_mem_buildTsDict l kv hkv
    have hne : lastBarAt l t ≠ none := by rw [← hfst]; simp [this]
    by_contra hmem
    exact hne ((lastBarAt_eq_none_iff l t).mpr hmem)
  · intro h
    have hne : lastBarAt l t ≠ none := by
      intro hnone
      exact (lastBarAt_eq_none_iff l t).mp hnone h
    have hfind : dictFind (buildTsDict l) t ≠ none := by
      rw [buildTsDict_find]; exact hne
    unfold dictFind at hfind
    cases hf : (buildTsDict l).find? (fun kv => decide (kv.1 = t)) with
    | none => rw [hf] at hfind; simp at hfind
    | some kv =>
        have hmem := List.mem_of_find?_eq_some hf
        have hpred := List.find?_some hf
        have : kv.1 = t := by simpa using hpred
        exact List.mem_map.mpr ⟨kv, hmem, this⟩

/-! ### Sortedness of the deduplicated merge -/

/-- Strict ascending-timestamp relation. -/
def tsLt (a b : Bar) : Prop := a.ts < b.ts

instance : IsTrans Bar tsLt := ⟨fun _ _ _ => Int.lt_trans⟩

theorem tsStrictAsc_iff_chain' (l : List Bar) :
    tsStrictAsc l = true ↔ List.Chain' tsLt l := by
  induction l with
  | nil => simp [tsStrictAsc]
  | cons a t ih =>
      cases t with
      | nil => simp [tsStrictAsc, List.chain'_singleton]
      | cons b r =>
          rw [tsStrictAsc, List.chain'_cons]
          simp only [Bool.and_eq_true, decide_eq_true_eq]
          exact and_congr Iff.rfl ih

theorem dedupSorted_perm (l : List Bar) :
    (dedupSorted l).Perm ((buildTsDict l).map Prod.snd) :=
  List.perm_insertionSort tsLe _

theorem dedupSorted_sorted (l : List Bar) : List.Sorted tsLe (dedupSorted l) :=
  List.sorted_insertionSort tsLe _

theorem map_ts_eq_keys (l : List Bar) :
    ((buildTsDict l).map Prod.snd).map Bar.ts = (buildTsDict l).map Prod.fst := by
  rw [List.map_map]
  exact List.map_congr_left fun kv hkv => entries_ts_buildTsDict l kv hkv

theorem map_ts_dedupSorted_nodup (l : List Bar) :
    ((dedupSorted l).map Bar.ts).Nodup := by
  have hperm : ((dedupSorted l).map Bar.ts).Perm
      (((buildTsDict l).map Prod.snd).map Bar.ts) :=
    (dedupSorted_perm l).map Bar.ts
  rw [List.Perm.nodup_iff hperm, map_ts_eq_keys]
  exact keys_buildTsDict_nodup l

theorem mem_map_ts_dedupSorted (l : List Bar) (t : Int) :
    t ∈ (dedupSorted l).map Bar.ts ↔ t ∈ l.map Bar.ts := by
  have hperm : ((dedupSorted l).map Bar.ts).Perm
      (((buildTsDict l).map Prod.snd).map Bar.ts) :=
    (dedupSorted_perm l).map Bar.ts
  rw [hperm.mem_iff, map_ts_eq_keys]
  exact mem_keys_buildTsDict l t

theorem dedupSorted_lastBar (l : List Bar) :
    ∀ b ∈ dedupSorted l, lastBarAt l b.ts = some b := by
  intro b hb
  have hb' : b ∈ (buildTsDict l).map Prod.snd := (dedupSorted_perm l).mem_iff.mp hb
  rcases List.mem_map.mp hb' with ⟨kv, hkv, hsnd⟩
  have hts := entries_ts_buildTsDict l kv hkv
  have := lastBarAt_of_mem_buildTsDict l kv hkv
  rw [← hsnd, hts]
  exact this

theorem tsStrictAsc_dedupSorted (l : List Bar) :
    tsStrictAsc (dedupSorted l) = true := by
  rw [tsStrictAsc_iff_chain', List.chain'_iff_pairwise]
  have hle : (dedupSorted l).Pairwise tsLe := dedupSorted_sorted l
  have hne : (dedupSorted l).Pairwise (fun a b : Bar => a.ts ≠ b.ts) :=
    List.pairwise_map.mp (map_ts_dedupSorted_nodup l)
  exact (hle.and hne).imp fun hab => lt_of_le_of_ne hab.1 hab.2

theorem tsStrictAsc_drop (l : List Bar) (n : Nat)
    (h : tsStrictAsc l = true) : tsStrictAsc (l.drop n) = true := by
  rw [tsStrictAsc_iff_chain', List.chain'_iff_pairwise] at h ⊢
  exact h.sublist (List.drop_sublist n l)

theorem dedupSorted_nil : dedupSorted [] = [] := rfl

theorem mergeBars_eq_drop (l : List Bar) (maxBars : Nat) (h : 1 ≤ maxBars) :
    mergeBars l maxBars =
      (dedupSorted l).drop ((dedupSorted l).length - maxBars) := by
  unfold mergeBars pySliceLast
  by_cases hl : l = []
  · rw [if_pos hl, hl, dedupSorted_nil]; simp
  · rw [if_neg hl, if_neg (by omega)]

theorem tsStrictAsc_mergeBars (l : List Bar) (maxBars : Nat) :
    tsStrictAsc (mergeBars l maxBars) = true := by
  unfold mergeBars pySliceLast
  by_cases hl : l = []
  · rw [if_pos hl]; rfl
  · rw [if_neg hl]
    by_cases hm : maxBars = 0
    · rw [if_pos hm]; exact tsStrictAsc_dedupSorted l
    · rw [if_neg hm]; exact tsStrictAsc_drop _ _ (tsStrictAsc_dedupSorted l)

theorem length_mergeBars_le (l : List Bar) (maxBars : Nat) (h : 1 ≤ maxBars) :
    (mergeBars l maxBars).length ≤ maxBars := by
  rw [mergeBars_eq_drop l maxBars h, List.length_drop]
  omega

/-! ### Router loop lemmas -/

/-- A provider outcome the auto loop passes over: a raised fetch or an
empty result. -/
def failsOrEmpty (o : Except Unit (List Bar)) : Prop :=
  o = Except.error () ∨ o = Except.ok []

theorem cryptoTryProviders_skip (env : CryptoAdapters) (p : String)
    (rest : List String) (h : Health)
    (hp : failsOrEmpty (fetch_from_provider env p)) :
    cryptoTryProviders env (p :: rest) h = cryptoTryProviders env rest h := by
  rcases hp with hp | hp <;> simp [cryptoTryProviders, hp]

theorem cryptoTryProviders_append_skip (env : CryptoAdapters)
    (pre rest : List String) (h : Health)
    (hpre : ∀ q ∈ pre, failsOrEmpty (fetch_from_provider env q)) :
    cryptoTryProviders env (pre ++ rest) h = cryptoTryProviders env rest h := by
  induction pre with
  | nil => rfl
  | cons q pre' ih =>
      rw [List.cons_append,
        cryptoTryProviders_skip env q _ h (hpre q (List.mem_cons_self q pre'))]
      exact ih fun q' hq' => hpre q' (List.mem_cons_of_mem q hq')

theorem cryptoTryProviders_all_fail (env : CryptoAdapters) (l : List String)
    (h : Health) (hall : ∀ p ∈ l, failsOrEmpty (fetch_from_provider env p)) :
    cryptoTryProviders env l h = (Except.ok [], h) := by
  have := cryptoTryProviders_append_skip env l [] h hall
  rw [List.append_nil] at this
  rw [this]
  rfl

theorem cryptoTryProviders_first_success (env : CryptoAdapters) (p : String)
    (rest : List String) (h : Health) (bs : List Bar)
    (hp : fetch_from_provider env p = Except.ok bs) (hne : bs ≠ []) :
    cryptoTryProviders env (p :: rest) h = (Except.ok bs, setHealthy h p) := by
  simp [cryptoTryProviders, hp, hne]

theorem fetch_history_crypto_auto (env : CryptoAdapters) (h : Health) :
    fetch_history_crypto env h "auto" =
      cryptoTryProviders env (PROVIDER_PRIORITY.filter h) h := by
  simp [fetch_history_crypto]

theorem fetch_history_crypto_explicit (env : CryptoAdapters) (h : Health)
    (provider : String) (hp : provider ≠ "auto") :
    fetch_history_crypto env h provider = (fetch_from_provider env provider, h) := by
  simp [fetch_history_crypto, hp]

theorem stockTryProviders_skip (env : StockAdapters) (draws : MockDraws)
    (symbol : List Nat) (interval days : Nat) (p : String)
    (rest : List String) (h : Health)
    (hp : failsOrEmpty (fetch_from_stock_provider env p)) :
    stockTryProviders env draws symbol interval days (p :: rest) h =
      stockTryProviders env draws symbol interval days rest h := by
  rcases hp with hp | hp <;> simp [stockTryProviders, hp]

theorem stockTryProviders_append_skip (env : StockAdapters) (draws : MockDraws)
    (symbol : List Nat) (interval days : Nat) (pre rest : List String)
    (h : Health)
    (hpre : ∀ q ∈ pre, failsOrEmpty (fetch_from_stock_provider env q)) :
    stockTryProviders env draws symbol interval days (pre ++ rest) h =
      stockTryProviders env draws symbol interval days rest h := by
  induction pre with
  | nil => rfl
  | cons q pre' ih =>
      rw [List.cons_append,
        stockTryProviders_skip env draws symbol interval days q _ h
          (hpre q (List.mem_cons_self q pre'))]
      exact ih fun q' hq' => hpre q' (List.mem_cons_of_mem q hq')

theorem stockTryProviders_all_fail (env : StockAdapters) (draws : MockDraws)
    (symbol : List Nat) (interval days : Nat) (l : List String) (h : Health)
    (hall : ∀ p ∈ l, failsOrEmpty (fetch_from_stock_provider env p)) :
    stockTryProviders env draws symbol interval days l h =
      (Except.ok (stockMockFallback draws symbol interval days), h) := by
  have := stockTryProviders_append_skip env draws symbol interval days l [] h hall
  rw [List.append_nil] at this
  rw [this]
  rfl

theorem stockTryProviders_first_success (env : StockAdapters)
    (draws : MockDraws) (symbol : List Nat) (interval days : Nat) (p : String)
    (rest : List String) (h : Health) (bs : List Bar)
    (hp : fetch_from_stock_provider env p = Except.ok bs) (hne : bs ≠ []) :
    stockTryProviders env draws symbol interval days (p :: rest) h =
      (Except.ok bs, setHealthy h p) := by
  simp [stockTryProviders, hp, hne]

theorem fetch_stock_history_auto (env : StockAdapters) (draws : MockDraws)
    (h : Health) (symbol : List Nat) (interval days : Nat)
    (hval : is_valid_stock_symbol symbol = true) :
    fetch_stock_history env draws h symbol interval days "auto" =
      stockTryProviders env draws symbol interval days
        (STOCK_PROVIDER_PRIORITY.filter h) h := by
  simp [fetch_stock_history, hval]

theorem fetch_stock_history_explicit (env : StockAdapters) (draws : MockDraws)
    (h : Health) (symbol : List Nat) (interval days : Nat) (provider : String)
    (hval : is_valid_stock_symbol symbol = true) (hp : provider ≠ "auto") :
    fetch_stock_history env draws h symbol interval days provider =
      (fetch_from_stock_provider env provider, h) := by
  simp [fetch_stock_history, hval, hp]

/-! ### Mock generator facts -/

theorem generate_realistic_ohlcv_length (draws : MockDraws) (symbol : List Nat)
    (interval count : Nat) :
    (generate_realistic_ohlcv draws symbol interval count).length = count := by
  simp [generate_realistic_ohlcv]

theorem stockMockFallback_eq (draws : MockDraws) (symbol : List Nat)
    (interval days : Nat) (hint : interval ≠ 0)
    (hpos : 1 ≤ stock_bars_needed interval days) :
    stockMockFallback draws symbol interval days =
      generate_realistic_ohlcv draws symbol interval
        (stock_bars_needed interval days) ∧
    stockMockFallback draws symbol interval days ≠ [] := by
  have hne : generate_realistic_ohlcv draws symbol interval
      (stock_bars_needed interval days) ≠ [] := by
    intro hnil
    have := generate_realistic_ohlcv_length draws symbol interval
      (stock_bars_needed interval days)
    rw [hnil] at this
    simp at this
    omega
  constructor
  · unfold stockMockFallback
    rw [if_neg hint, if_pos hne]
  · unfold stockMockFallback
    rw [if_neg hint, if_pos hne]
    exact hne

/-! ### Health monotonicity -/

theorem setHealthy_true (h : Health) (p q : String) (hq : h q = true) :
    setHealthy h p q = true := by
  unfold setHealthy
  split <;> simp [hq]

theorem cryptoTryProviders_health (env : CryptoAdapters) (l : List String)
    (h : Health) (q : String) (hq : h q = true) :
    (cryptoTryProviders env l h).2 q = true := by
  induction l with
  | nil => exact hq
  | cons p rest ih =>
      unfold cryptoTryProviders
      cases fetch_from_provider env p with
      | error e => exact ih
      | ok data =>
          by_cases hne : data ≠ []
          · simp [hne]
            exact setHealthy_true h p q hq
          · simp [hne]
            exact ih

theorem fetch_history_crypto_health (env : CryptoAdapters) (h : Health)
    (provider q : String) (hq : h q = true) :
    (fetch_history_crypto env h provider).2 q = true := by
  unfold fetch_history_crypto
  split
  · exact hq
  · exact cryptoTryProviders_health env _ h q hq

theorem cryptoRun_health (ops : List CryptoRouterOp) :
    ∀ (h : Health), (∀ q, h q = true) → ∀ q, cryptoRun ops h q = true := by
  induction ops with
  | nil => intro h hh q; exact hh q
  | cons op rest ih =>
      intro h hh q
      rw [cryptoRun, List.foldl_cons]
      refine ih _ ?_ q
      intro q'
      cases op with
      | fetch env provider => exact fetch_history_crypto_health env h provider q' (hh q')
      | reset => rfl

theorem stockTryProviders_health (env : StockAdapters) (draws : MockDraws)
    (symbol : List Nat) (interval days : Nat) (l : List String) (h : Health)
    (q : String) (hq : h q = true) :
    (stockTryProviders env draws symbol interval days l h).2 q = true := by
  induction l with
  | nil => exact hq
  | cons p rest ih =>
      unfold stockTryProviders
      cases fetch_from_stock_provider env p with
      | error e => exact ih
      | ok data =>
          by_cases hne : data ≠ []
          · simp [hne]
            exact setHealthy_true h p q hq
          · simp [hne]
            exact ih

theorem fetch_stock_history_health (env : StockAdapters) (draws : MockDraws)
    (h : Health) (symbol : List Nat) (interval days : Nat) (provider q : String)
    (hq : h q = true) :
    (fetch_stock_history env draws h symbol interval days provider).2 q = true := by
  unfold fetch_stock_history
  split
  · exact hq
  · split
    · exact hq
    · exact stockTryProviders_health env draws symbol interval days _ h q hq

theorem stockRun_health (ops : List StockRouterOp) :
    ∀ (h : Health), (∀ q, h q = true) → ∀ q, stockRun ops h q = true := by
  induction ops with
  | nil => intro h hh q; exact hh q
  | cons op rest ih =>
      intro h hh q
      rw [stockRun, List.foldl_cons]
      refine ih _ ?_ q
      intro q'
      cases op with
      | fetch env draws symbol interval days provider =>
          exact fetch_stock_history_health env draws h symbol interval days
            provider q' (hh q')

/-! ### Pagination loop bounds and ordering -/

theorem krakenDaysLoop_pages_le (env : Nat → KrakenPage) (maxBars : Nat) :
    ∀ (fuel attempt : Nat) (last : Int) (out : List Bar),
      (krakenDaysLoop env maxBars fuel attempt last out).2 ≤ fuel := by
  intro fuel
  induction fuel with
  | zero => intro attempt last out; simp [krakenDaysLoop]
  | succ n ih =>
      intro attempt last out
      unfold krakenDaysLoop
      cases env attempt with
      | httpError => simp
      | apiError => simp
      | page series lastF =>
          simp only
          split
          · simp
          · cases lastF with
            | none => simp
            | some v =>
                simp only
                split
                · simp
                · exact Nat.succ_le_succ (ih _ _ _)

theorem fetch_ohlc_days_kraken_pages_le (env : Nat → KrakenPage)
    (symbol : List Nat) (interval : Int) (now : Int) (days maxBars : Nat) :
    (fetch_ohlc_days_kraken env symbol interval now days maxBars).2 ≤ 20 := by
  unfold fetch_ohlc_days_kraken
  split
  · simp
  · split
    · simp
    · exact krakenDaysLoop_pages_le env maxBars 20 0 _ []

theorem fetch_ohlc_days_kraken_sorted (env : Nat → KrakenPage)
    (symbol : List Nat) (interval : Int) (now : Int) (days maxBars : Nat) :
    tsStrictAsc (fetch_ohlc_days_kraken env symbol interval now days maxBars).1
      = true := by
  unfold fetch_ohlc_days_kraken
  split
  · rfl
  · split
    · rfl
    · exact tsStrictAsc_mergeBars _ maxBars

theorem binanceDaysLoop_pages_le (env : Nat → BinanceResp) (symbol : List Nat)
    (interval : Int) (total : Nat) :
    ∀ (fuel i : Nat) (acc : List Bar),
      (binanceDaysLoop env symbol interval total fuel i acc).2 ≤ fuel := by
  intro fuel
  induction fuel with
  | zero => intro i acc; simp [binanceDaysLoop]
  | succ n ih =>
      intro i acc
      unfold binanceDaysLoop
      simp only
      split
      · simp
      · split
        · simp
        · exact Nat.succ_le_succ (ih _ _)

theorem fetch_binance_ohlc_days_pages (env : Nat → BinanceResp)
    (symbol : List Nat) (interval days maxBars : Nat) (r : List Bar × Nat)
    (h : fetch_binance_ohlc_days env symbol interval days maxBars = Except.ok r) :
    r.2 ≤ (min (days * (1440 / interval)) maxBars + 999) / 1000 := by
  unfold fetch_binance_ohlc_days at h
  by_cases h0 : interval = 0
  · rw [if_pos h0] at h; cases h
  · rw [if_neg h0] at h
    simp only [Except.ok.injEq] at h
    have hb := binanceDaysLoop_pages_le env symbol (Int.ofNat interval)
      (min (days * (24 * 60 / interval)) maxBars)
      ((min (days * (24 * 60 / interval)) maxBars + 999) / 1000) 0 []
    rw [← h]
    simpa using hb

theorem fetch_binance_ohlc_days_pages_default (env : Nat → BinanceResp)
    (symbol : List Nat) (interval days : Nat) (r : List Bar × Nat)
    (h : fetch_binance_ohlc_days env symbol interval days 5000 = Except.ok r) :
    r.2 ≤ 5 := by
  have hle := fetch_binance_ohlc_days_pages env symbol interval days 5000 r h
  have h1 : min (days * (1440 / interval)) 5000 + 999 ≤ 5999 := by omega
  calc r.2 ≤ (min (days * (1440 / interval)) 5000 + 999) / 1000 := hle
    _ ≤ 5999 / 1000 := Nat.div_le_div_right h1
    _ = 5 := by norm_num

theorem fetch_binance_ohlc_days_sorted (env : Nat → BinanceResp)
    (symbol : List Nat) (interval days maxBars : Nat) (r : List Bar × Nat)
    (h : fetch_binance_ohlc_days env symbol interval days maxBars = Except.ok r) :
    tsStrictAsc r.1 = true := by
  unfold fetch_binance_ohlc_days at h
  by_cases h0 : interval = 0
  · rw [if_pos h0] at h; cases h
  · rw [if_neg h0] at h
    simp only [Except.ok.injEq] at h
    rw [← h]
    exact tsStrictAsc_mergeBars _ maxBars

/-! ### Case-insensitivity of symbol normalization -/

theorem pyUpperC_pyLowerC (n : Nat) : pyUpperC (pyLowerC n) = pyUpperC n := by
  unfold pyUpperC pyLowerC
  split_ifs <;> omega

theorem pyUpperC_pyUpperC (n : Nat) : pyUpperC (pyUpperC n) = pyUpperC n := by
  unfold pyUpperC
  split_ifs <;> omega

theorem pyUpper_pyLower_eq (x : List Nat) : pyUpper (pyLower x) = pyUpper x := by
  unfold pyUpper pyLower
  rw [List.map_map]
  exact List.map_congr_left fun a _ => pyUpperC_pyLowerC a

theorem pyUpper_pyUpper_eq (x : List Nat) : pyUpper (pyUpper x) = pyUpper x := by
  unfold pyUpper
  rw [List.map_map]
  exact List.map_congr_left fun a _ => pyUpperC_pyUpperC a

theorem pyLowerC_eq_47 (c : Nat) : pyLowerC c = 47 ↔ c = 47 := by
  unfold pyLowerC
  split_ifs <;> omega

theorem pyUpperC_eq_47 (c : Nat) : pyUpperC c = 47 ↔ c = 47 := by
  unfold pyUpperC
  split_ifs <;> omega

theorem mem_47_map (f : Nat → Nat) (hf : ∀ c, f c = 47 ↔ c = 47)
    (x : List Nat) : 47 ∈ x.map f ↔ 47 ∈ x := by
  rw [List.mem_map]
  constructor
  · rintro ⟨a, ha, hfa⟩
    exact ((hf a).mp hfa) ▸ ha
  · intro h
    exact ⟨47, h, (hf 47).mpr rfl⟩

theorem splitFirst_map_of (f : Nat → Nat) (hf : ∀ c, f c = 47 ↔ c = 47)
    (x : List Nat) :
    splitFirst 47 (x.map f) =
      Option.map (fun p => (p.1.map f, p.2.map f)) (splitFirst 47 x) := by
  induction x with
  | nil => rfl
  | cons c rest ih =>
      rw [List.map_cons]
      by_cases hc : c = 47
      · subst hc
        have hfc : f 47 = 47 := (hf 47).mpr rfl
        simp [splitFirst, hfc]
      · have hfc : ¬ f c = 47 := fun hh => hc ((hf c).mp hh)
        simp only [splitFirst, if_neg hfc, if_neg hc, ih]
        cases splitFirst 47 rest <;> simp

theorem splitFirst_pyLower (x : List Nat) :
    splitFirst 47 (pyLower x) =
      Option.map (fun p => (pyLower p.1, pyLower p.2)) (splitFirst 47 x) :=
  splitFirst_map_of pyLowerC pyLowerC_eq_47 x

theorem splitFirst_pyUpper (x : List Nat) :
    splitFirst 47 (pyUpper x) =
      Option.map (fun p => (pyUpper p.1, pyUpper p.2)) (splitFirst 47 x) :=
  splitFirst_map_of pyUpperC pyUpperC_eq_47 x

theorem to_binance_symbol_lower_upper (x : List Nat) :
    to_binance_symbol (pyLower x) = to_binance_symbol (pyUpper x) := by
  by_cases hx : x = []
  · subst hx; rfl
  · have hl : ¬ pyLower x = [] := by simp [pyLower, hx]
    have hu : ¬ pyUpper x = [] := by simp [pyUpper, hx]
    have hup : pyUpper (pyLower x) = pyUpper (pyUpper x) := by
      rw [pyUpper_pyLower_eq, pyUpper_pyUpper_eq]
    rw [to_binance_symbol, to_binance_symbol, if_neg hl, if_neg hu, hup]
    cases hq : assocLookup
        (removeChar 95 (removeChar 45 (removeChar 47 (pyUpper (pyUpper x)))))
        binanceMappings with
    | some v => simp [hq]
    | none =>
        simp only [hq]
        split
        · rfl
        · have hml : (47 ∈ pyLower x) ↔ 47 ∈ x := mem_47_map pyLowerC pyLowerC_eq_47 x
          have hmu : (47 ∈ pyUpper x) ↔ 47 ∈ x := mem_47_map pyUpperC pyUpperC_eq_47 x
          by_cases hmem : 47 ∈ x
          · rw [if_pos (hml.mpr hmem), if_pos (hmu.mpr hmem),
              splitFirst_pyLower x, splitFirst_pyUpper x]
            cases hsp : splitFirst 47 x with
            | none => rfl
            | some ab =>
                obtain ⟨a, b⟩ := ab
                simp only [Option.map_some']
                rw [pyUpper_pyLower_eq a, pyUpper_pyLower_eq b,
                  pyUpper_pyUpper_eq a, pyUpper_pyUpper_eq b]
          · rw [if_neg (fun hh => hmem (hml.mp hh)),
              if_neg (fun hh => hmem (hmu.mp hh))]

/-! ## Claim theorems -/

/-- An environment in which every crypto adapter branch raises, except
`yfinance`, which (as in the source) swallows its errors and returns `[]`. -/
def cryptoAllFailEnv : CryptoAdapters :=
  ⟨Except.error (), Except.error (), Except.error (), []⟩

/-- C1 (counterexample): in `"auto"` mode with every provider raising or
returning empty, `fetch_history_crypto` returns the empty list — the crypto
router has no synthetic fallback, contradicting the claim that the router
history operation never returns `[]` in auto mode. -/
theorem C1_counterexample :
    (∀ p ∈ PROVIDER_PRIORITY, failsOrEmpty (fetch_from_provider cryptoAllFailEnv p)) ∧
    (fetch_history_crypto cryptoAllFailEnv (fun _ => true) "auto").1 =
      Except.ok [] := by
  constructor
  · intro p hp
    fin_cases hp
    · exact Or.inl rfl
    · exact Or.inl rfl
    · exact Or.inl rfl
    · exact Or.inr rfl
  · rfl

/-- C1 (amended): the crypto router returns `[]` when every provider raises
or returns empty (no synthetic fallback exists on the crypto path); the
stock router, for a symbol passing its format validation, falls back to the
deterministic mock series, which is non-empty whenever the computed bar
count is positive and the interval is non-zero. -/
theorem C1_amended_fallback :
    (∀ (env : CryptoAdapters) (h : Health),
      (∀ p ∈ PROVIDER_PRIORITY, failsOrEmpty (fetch_from_provider env p)) →
      (fetch_history_crypto env h "auto").1 = Except.ok []) ∧
    (∀ (env : StockAdapters) (draws : MockDraws) (h : Health)
        (symbol : List Nat) (interval days : Nat),
      is_valid_stock_symbol symbol = true →
      (∀ p ∈ STOCK_PROVIDER_PRIORITY, failsOrEmpty (fetch_from_stock_provider env p)) →
      interval ≠ 0 → 1 ≤ stock_bars_needed interval days →
      (fetch_stock_history env draws h symbol interval days "auto").1 =
        Except.ok (generate_realistic_ohlcv draws symbol interval
          (stock_bars_needed interval days)) ∧
      (fetch_stock_history env draws h symbol interval days "auto").1 ≠
        Except.ok []) := by
  constructor
  · intro env h hall
    rw [fetch_history_crypto_auto,
      cryptoTryProviders_all_fail env _ h
        (fun p hp => hall p (List.mem_of_mem_filter hp))]
  · intro env draws h symbol interval days hval hall hint hpos
    rw [fetch_stock_history_auto env draws h symbol interval days hval,
      stockTryProviders_all_fail env draws symbol interval days _ h
        (fun p hp => hall p (List.mem_of_mem_filter hp))]
    obtain ⟨hmock, hne⟩ := stockMockFallback_eq draws symbol interval days hint hpos
    refine ⟨by rw [hmock], ?_⟩
    intro hcontra
    simp only [Except.ok.injEq] at hcontra
    exact hne hcontra

/-- C1 (witness for the amended theorem): with every stock provider failing,
a valid symbol and positive bar target, the auto-mode stock fetch is not
empty. -/
theorem C1_amended_fallback_witness :
    (fetch_stock_history
        ⟨Except.error (), Except.error (), Except.error (), Except.error (),
          Except.error (), Except.error ()⟩
        ⟨5000, fun _ => 1, fun _ => 2, fun _ => 0, fun _ => 1, fun _ => 3⟩
        (fun _ => true) (str "AAPL") 5 1 "auto").1 ≠ Except.ok [] :=
  (C1_amended_fallback.2 _ _ (fun _ => true) (str "AAPL") 5 1 (by decide)
    (by
      intro p hp
      fin_cases hp
      · exact Or.inl rfl
      · exact Or.inl rfl
      · exact Or.inl rfl
      · exact Or.inl rfl
      · exact Or.inl rfl
      · exact Or.inl rfl)
    (by decide) (by decide)).2

/-- C3: in `"auto"` mode both routers iterate the healthy candidates in
priority order; a raising candidate is swallowed and the next tried; the
first candidate returning a non-empty list has its health set to healthy
and its result returned immediately, independent of all later candidates;
empty results continue the iteration. -/
theorem C3_first_nonempty_wins :
    (∀ (env : CryptoAdapters) (h : Health) (pre post : List String)
        (p : String) (bs : List Bar),
      PROVIDER_PRIORITY.filter h = pre ++ p :: post →
      (∀ q ∈ pre, failsOrEmpty (fetch_from_provider env q)) →
      fetch_from_provider env p = Except.ok bs → bs ≠ [] →
      fetch_history_crypto env h "auto" = (Except.ok bs, setHealthy h p)) ∧
    (∀ (env : StockAdapters) (draws : MockDraws) (h : Health)
        (symbol : List Nat) (interval days : Nat) (pre post : List String)
        (p : String) (bs : List Bar),
      is_valid_stock_symbol symbol = true →
      STOCK_PROVIDER_PRIORITY.filter h = pre ++ p :: post →
      (∀ q ∈ pre, failsOrEmpty (fetch_from_stock_provider env q)) →
      fetch_from_stock_provider env p = Except.ok bs → bs ≠ [] →
      fetch_stock_history env draws h symbol interval days "auto" =
        (Except.ok bs, setHealthy h p)) := by
  constructor
  · intro env h pre post p bs hfilter hpre hp hne
    rw [fetch_history_crypto_auto, hfilter,
      cryptoTryProviders_append_skip env pre _ h hpre,
      cryptoTryProviders_first_success env p post h bs hp hne]
  · intro env draws h symbol interval days pre post p bs hval hfilter hpre hp hne
    rw [fetch_stock_history_auto env draws h symbol interval days hval, hfilter,
      stockTryProviders_append_skip env draws symbol interval days pre _ h hpre,
      stockTryProviders_first_success env draws symbol interval days p post h bs hp hne]

/-- C3 (witness): the spec scenario — provider A (binance) raises, provider
B (kraken) returns bars; the result is B's bars and B is marked healthy. -/
theorem C3_first_nonempty_wins_witness :
    fetch_history_crypto
        ⟨Except.error (), Except.ok [⟨100, 1, 2, 0, 1, 5⟩], Except.error (), []⟩
        (fun _ => true) "auto" =
      (Except.ok [⟨100, 1, 2, 0, 1, 5⟩], setHealthy (fun _ => true) "kraken") :=
  C3_first_nonempty_wins.1 _ (fun _ => true) ["binance"] ["coinbase", "yfinance"]
    "kraken" [⟨100, 1, 2, 0, 1, 5⟩] (by decide)
    (by
      intro q hq
      fin_cases hq
      exact Or.inl rfl)
    rfl (by decide)

/-- The stock adapter environment of the C4 counterexample: the polygon
branch would return one bar; everything else raises. -/
def stockPolygonEnv : StockAdapters :=
  ⟨Except.ok [⟨100, 1, 2, 0, 1, 5⟩], Except.error (), Except.error (),
    Except.error (), Except.error (), Except.error ()⟩

/-- A trivial mock-draw environment for concrete stock router inputs. -/
def zeroDraws : MockDraws :=
  ⟨0, fun _ => 0, fun _ => 0, fun _ => 0, fun _ => 0, fun _ => 0⟩

/-- C4 (counterexample): with the explicit provider `"polygon"` whose
adapter would return one bar, the stock router returns `[]` for the symbol
`"1"` — the symbol-format validation runs before explicit dispatch, so the
explicitly selected provider is never called and its literal outcome is not
propagated. -/
theorem C4_counterexample :
    (fetch_stock_history stockPolygonEnv zeroDraws (fun _ => true) (str "1")
        5 1 "polygon").1 = Except.ok [] ∧
    fetch_from_stock_provider stockPolygonEnv "polygon" =
      Except.ok [⟨100, 1, 2, 0, 1, 5⟩] ∧
    (Except.ok [⟨100, 1, 2, 0, 1, 5⟩] : Except Unit (List Bar)) ≠
      Except.ok [] := by
  refine ⟨rfl, rfl, ?_⟩
  simp

/-- C4 (amended): for an explicit provider name, the crypto router
unconditionally — and the stock router for symbols passing its format
validation — calls only that provider and propagates its literal outcome
(raises propagate, empty returns as empty), leaving health untouched. -/
theorem C4_amended_explicit_transparency :
    (∀ (env : CryptoAdapters) (h : Health) (p : String), p ≠ "auto" →
      fetch_history_crypto env h p = (fetch_from_provider env p, h)) ∧
    (∀ (env : StockAdapters) (draws : MockDraws) (h : Health)
        (symbol : List Nat) (interval days : Nat) (p : String),
      is_valid_stock_symbol symbol = true → p ≠ "auto" →
      fetch_stock_history env draws h symbol interval days p =
        (fetch_from_stock_provider env p, h)) :=
  ⟨fun env h p hp => fetch_history_crypto_explicit env h p hp,
   fun env draws h s i d p hv hp =>
      fetch_stock_history_explicit env draws h s i d p hv hp⟩

/-- C4 (witness): an explicit `"binance"` request propagates the raised
fetch error literally and leaves health untouched. -/
theorem C4_amended_explicit_transparency_witness :
    fetch_history_crypto cryptoAllFailEnv (fun _ => true) "binance" =
      (fetch_from_provider cryptoAllFailEnv "binance", fun _ => true) :=
  C4_amended_explicit_transparency.1 cryptoAllFailEnv (fun _ => true) "binance"
    (by decide)

/-- C9 (counterexample): the stock router's provider dispatch contains no
request spacing: a stock fetch issued at the same instant as the previous
one is separated by less than the configured minimum interval. -/
theorem C9_counterexample :
    stock_issue_time 0 - 0 < MIN_REQUEST_INTERVAL := by
  norm_num [stock_issue_time, MIN_REQUEST_INTERVAL]

/-- C9 (amended): the crypto router enforces per-provider spacing on every
fetch: whatever the arrival time and the provider's recorded last-request
time, the upstream request is issued at least `MIN_REQUEST_INTERVAL` after
the recorded time. -/
theorem C9_amended_crypto_spacing (now last : ℚ) :
    MIN_REQUEST_INTERVAL ≤ crypto_issue_time now last - last := by
  unfold crypto_issue_time rate_limit_wait
  split_ifs with h
  · linarith
  · unfold MIN_REQUEST_INTERVAL at h ⊢
    linarith

/-- C10: no router operation ever demotes provider health: from the initial
all-healthy state, any sequence of fetches (auto or explicit) and resets
leaves every provider healthy, the health snapshot reads `true` everywhere,
and the auto-mode healthy filter never excludes a provider. -/
theorem C10_health_never_demoted :
    (∀ (ops : List CryptoRouterOp) (p : String), p ∈ PROVIDER_PRIORITY →
      get_provider_health (cryptoRun ops (fun _ => true)) p = true) ∧
    (∀ (ops : List StockRouterOp) (p : String), p ∈ STOCK_PROVIDER_PRIORITY →
      stockRun ops (fun _ => true) p = true) ∧
    (∀ h : Health, (∀ p, h p = true) →
      PROVIDER_PRIORITY.filter h = PROVIDER_PRIORITY ∧
      STOCK_PROVIDER_PRIORITY.filter h = STOCK_PROVIDER_PRIORITY) := by
  refine ⟨?_, ?_, ?_⟩
  · intro ops p _
    exact cryptoRun_health ops (fun _ => true) (fun _ => rfl) p
  · intro ops p _
    exact stockRun_health ops (fun _ => true) (fun _ => rfl) p
  · intro h hh
    exact ⟨List.filter_eq_self.mpr fun a _ => hh a,
      List.filter_eq_self.mpr fun a _ => hh a⟩

/-- C10 (witness): after a reset and a failing auto fetch, binance still
reads healthy. -/
theorem C10_health_never_demoted_witness :
    get_provider_health
      (cryptoRun [CryptoRouterOp.reset,
        CryptoRouterOp.fetch cryptoAllFailEnv "auto"] (fun _ => true))
      "binance" = true :=
  C10_health_never_demoted.1 _ "binance" (by decide)

/-- C2 (counterexample): with `max_bars = 0` the Python slice
`out[-max_bars:]` is the whole list, so a merge whose count exceeds the cap
is not truncated to the most recent `max_bars` entries. -/
theorem C2_counterexample :
    mergeBars [⟨1, 1, 1, 1, 1, 1⟩] 0 = [⟨1, 1, 1, 1, 1, 1⟩] ∧
    0 < ([⟨1, 1, 1, 1, 1, 1⟩] : List Bar).length ∧
    ¬ (mergeBars [⟨1, 1, 1, 1, 1, 1⟩] 0).length ≤ 0 := by
  refine ⟨rfl, by decide, ?_⟩
  intro hc
  have h1 : mergeBars [⟨1, 1, 1, 1, 1, 1⟩] 0 = [⟨1, 1, 1, 1, 1, 1⟩] := rfl
  rw [h1] at hc
  simp at hc

/-- C2 (amended): for any positive `max_bars` cap (both call sites use the
default 5000), the paginated merge is last-write-wins keyed by timestamp:
the deduplicated result has exactly one bar per distinct timestamp of the
accumulated input, each equal to the input's last occurrence at that
timestamp, sorted strictly ascending; the returned list is its suffix of at
most `max_bars` most recent entries. -/
theorem C2_amended_merge (l : List Bar) (maxBars : Nat) (h : 1 ≤ maxBars) :
    ((dedupSorted l).map Bar.ts).Nodup ∧
    (∀ b ∈ dedupSorted l, lastBarAt l b.ts = some b) ∧
    (∀ t : Int, t ∈ (dedupSorted l).map Bar.ts ↔ t ∈ l.map Bar.ts) ∧
    tsStrictAsc (dedupSorted l) = true ∧
    mergeBars l maxBars =
      (dedupSorted l).drop ((dedupSorted l).length - maxBars) ∧
    (mergeBars l maxBars).length ≤ maxBars :=
  ⟨map_ts_dedupSorted_nodup l, dedupSorted_lastBar l,
   fun t => mem_map_ts_dedupSorted l t, tsStrictAsc_dedupSorted l,
   mergeBars_eq_drop l maxBars h, length_mergeBars_le l maxBars h⟩

/-- C2 (witness): merging two bars at the same timestamp keeps exactly the
later one (the spec's `close=105` scenario, here `cl = 105`). -/
theorem C2_amended_merge_witness :
    lastBarAt [⟨1000, 1, 1, 1, 100, 1⟩, ⟨1000, 1, 1, 1, 105, 1⟩]
      (1000 : Int) = some ⟨1000, 1, 1, 1, 105, 1⟩ :=
  (C2_amended_merge [⟨1000, 1, 1, 1, 100, 1⟩, ⟨1000, 1, 1, 1, 105, 1⟩] 5000
    (by decide)).2.1 ⟨1000, 1, 1, 1, 105, 1⟩ (by decide)

/-- C5 (counterexample): the interval mappers saturate at the coarsest
supported resolution, so for requests beyond it the returned resolution is
smaller than the request — not a ceiling. -/
theorem C5_counterexample :
    interval_to_kraken 21601 = 21600 ∧ interval_to_kraken 21601 < 21601 ∧
    interval_to_binance 43201 = "1M" := by
  refine ⟨by decide, by decide, rfl⟩

/-- C5 (amended): the interval mappers are pure total functions
implementing the ceiling policy up to the coarsest supported resolution
(21600 minutes for Kraken, one month for Binance) and clamping to it
beyond; in particular 7 maps to 15, 60 to 60, and 1 to 1 on both. -/
theorem C5_amended_interval_ceiling :
    (interval_to_kraken 7 = 15 ∧ interval_to_kraken 60 = 60 ∧
      interval_to_kraken 1 = 1) ∧
    (interval_to_binance 7 = "15m" ∧ interval_to_binance 60 = "1h" ∧
      interval_to_binance 1 = "1m") ∧
    (∀ i : Int, i ≤ 21600 →
      interval_to_kraken i ∈ krakenSupported ∧ i ≤ interval_to_kraken i ∧
      ∀ r ∈ krakenSupported, i ≤ r → interval_to_kraken i ≤ r) ∧
    (∀ i : Int, 21600 < i → interval_to_kraken i = 21600) ∧
    (∀ i : Int, i ≤ 43200 → ∃ m : Int,
      (interval_to_binance i, m) ∈ binanceCodeMinutes ∧ i ≤ m ∧
      ∀ r ∈ binanceSupportedMinutes, i ≤ r → m ≤ r) ∧
    (∀ i : Int, 43200 < i → interval_to_binance i = "1M") := by
  refine ⟨⟨by decide, by decide, by decide⟩, ⟨rfl, rfl, rfl⟩, ?_, ?_, ?_, ?_⟩
  · intro i hi
    unfold interval_to_kraken
    split_ifs <;>
      exact ⟨by simp [krakenSupported], by omega,
        fun r hr hir => by simp [krakenSupported] at hr; omega⟩
  · intro i hi
    unfold interval_to_kraken
    split_ifs <;> omega
  · intro i hi
    unfold interval_to_binance
    by_cases h1 : i ≤ 1
    · rw [if_pos h1]
      exact ⟨1, by simp [binanceCodeMinutes], by omega,
        fun r hr hir => by simp [binanceSupportedMinutes] at hr; omega⟩
    · rw [if_neg h1]
      by_cases h2 : i ≤ 3
      · rw [if_pos h2]
        exact ⟨3, by simp [binanceCodeMinutes], by omega,
          fun r hr hir => by simp [binanceSupportedMinutes] at hr; omega⟩
      · rw [if_neg h2]
        by_cases h3 : i ≤ 5
        · rw [if_pos h3]
          exact ⟨5, by simp [binanceCodeMinutes], by omega,
            fun r hr hir => by simp [binanceSupportedMinutes] at hr; omega⟩
        · rw [if_neg h3]
          by_cases h4 : i ≤ 15
          · rw [if_pos h4]
            exact ⟨15, by simp [binanceCodeMinutes], by omega,
              fun r hr hir => by simp [binanceSupportedMinutes] at hr; omega⟩
          · rw [if_neg h4]
            by_cases h5 : i ≤ 30
            · rw [if_pos h5]
              exact ⟨30, by simp [binanceCodeMinutes], by omega,
                fun r hr hir => by simp [binanceSupportedMinutes] at hr; omega⟩
            · rw [if_neg h5]
              by_cases h6 : i ≤ 60
              · rw [if_pos h6]
                exact ⟨60, by simp [binanceCodeMinutes], by omega,
                  fun r hr hir => by simp [binanceSupportedMinutes] at hr; omega⟩
              · rw [if_neg h6]
                by_cases h7 : i ≤ 120
                · rw [if_pos h7]
                  exact ⟨120, by simp [binanceCodeMinutes], by omega,
                    fun r hr hir => by simp [binanceSupportedMinutes] at hr; omega⟩
                · rw [if_neg h7]
                  by_cases h8 : i ≤ 240
                  · rw [if_pos h8]
                    exact ⟨240, by simp [binanceCodeMinutes], by omega,
                      fun r hr hir => by simp [binanceSupportedMinutes] at hr; omega⟩
                  · rw [if_neg h8]
                    by_cases h9 : i ≤ 360
                    · rw [if_pos h9]
                      exact ⟨360, by simp [binanceCodeMinutes], by omega,
                        fun r hr hir => by simp [binanceSupportedMinutes] at hr; omega⟩
                    · rw [if_neg h9]
                      by_cases h10 : i ≤ 480
                      · rw [if_pos h10]
                        exact ⟨480, by simp [binanceCodeMinutes], by omega,
                          fun r hr hir => by simp [binanceSupportedMinutes] at hr; omega⟩
                      · rw [if_neg h10]
                        by_cases h11 : i ≤ 720
                        · rw [if_pos h11]
                          exact ⟨720, by simp [binanceCodeMinutes], by omega,
                            fun r hr hir => by simp [binanceSupportedMinutes] at hr; omega⟩
                        · rw [if_neg h11]
                          by_cases h12 : i ≤ 1440
                          · rw [if_pos h12]
                            exact ⟨1440, by simp [binanceCodeMinutes], by omega,
                              fun r hr hir => by simp [binanceSupportedMinutes] at hr; omega⟩
                          · rw [if_neg h12]
                            by_cases h13 : i ≤ 4320
                            · rw [if_pos h13]
                              exact ⟨4320, by simp [binanceCodeMinutes], by omega,
                                fun r hr hir => by simp [binanceSupportedMinutes] at hr; omega⟩
                            · rw [if_neg h13]
                              by_cases h14 : i ≤ 10080
                              · rw [if_pos h14]
                                exact ⟨10080, by simp [binanceCodeMinutes], by omega,
                                  fun r hr hir => by simp [binanceSupportedMinutes] at hr; omega⟩
                              · rw [if_neg h14]
                                exact ⟨43200, by simp [binanceCodeMinutes], by omega,
                                  fun r hr hir => by simp [binanceSupportedMinutes] at hr; omega⟩
  · intro i hi
    unfold interval_to_binance
    rw [if_neg (show ¬ i ≤ 1 by omega), if_neg (show ¬ i ≤ 3 by omega), if_neg (show ¬ i ≤ 5 by omega), if_neg (show ¬ i ≤ 15 by omega), if_neg (show ¬ i ≤ 30 by omega), if_neg (show ¬ i ≤ 60 by omega), if_neg (show ¬ i ≤ 120 by omega), if_neg (show ¬ i ≤ 240 by omega), if_neg (show ¬ i ≤ 360 by omega), if_neg (show ¬ i ≤ 480 by omega), if_neg (show ¬ i ≤ 720 by omega), if_neg (show ¬ i ≤ 1440 by omega), if_neg (show ¬ i ≤ 4320 by omega), if_neg (show ¬ i ≤ 10080 by omega)]

/-- C5 (witness): the amended ceiling at the spec's example request of 10
minutes: Kraken maps it to a supported resolution at least as coarse. -/
theorem C5_amended_interval_ceiling_witness :
    interval_to_kraken 10 ∈ krakenSupported ∧ (10 : Int) ≤ interval_to_kraken 10 :=
  ⟨(C5_amended_interval_ceiling.2.2.1 10 (by decide)).1,
   (C5_amended_interval_ceiling.2.2.1 10 (by decide)).2.1⟩

/-- C6 (counterexample): the single-page `fetch_binance_ohlc` returns
parsed bars in payload order without sorting, so a successful fetch whose
upstream payload is out of order is not strictly ascending by timestamp. -/
theorem C6_counterexample :
    fetch_binance_ohlc (str "ETH/USD") 5 100
        (BinanceResp.ok [[2000000, 1, 1, 1, 1, 1], [1000000, 1, 1, 1, 1, 1]]) =
      [⟨2000, 1, 1, 1, 1, 1⟩, ⟨1000, 1, 1, 1, 1, 1⟩] ∧
    tsStrictAsc (fetch_binance_ohlc (str "ETH/USD") 5 100
        (BinanceResp.ok [[2000000, 1, 1, 1, 1, 1], [1000000, 1, 1, 1, 1, 1]]))
      = false := by
  constructor
  · rfl
  · rfl

/-- C6 (amended): the multi-day fetchers (`fetch_ohlc_days_kraken` and
`fetch_binance_ohlc_days`) always return strictly-ascending, duplicate-free
bar sequences thanks to the final dedup-and-sort; the single-page
`fetch_binance_ohlc` merely maps the payload in its upstream order, so its
result is strictly ascending only when the payload is. -/
theorem C6_amended_ordering :
    (∀ (env : Nat → KrakenPage) (symbol : List Nat) (interval now : Int)
        (days maxBars : Nat),
      tsStrictAsc (fetch_ohlc_days_kraken env symbol interval now days maxBars).1
        = true) ∧
    (∀ (env : Nat → BinanceResp) (symbol : List Nat)
        (interval days maxBars : Nat) (r : List Bar × Nat),
      fetch_binance_ohlc_days env symbol interval days maxBars = Except.ok r →
      tsStrictAsc r.1 = true) ∧
    (∀ (symbol : List Nat) (interval : Int) (limit : Nat)
        (payload : List (List ℚ)),
      to_binance_symbol symbol ≠ [] →
      fetch_binance_ohlc symbol interval limit (BinanceResp.ok payload) =
        parse_binance_klines payload) := by
  refine ⟨?_, ?_, ?_⟩
  · intro env symbol interval now days maxBars
    exact fetch_ohlc_days_kraken_sorted env symbol interval now days maxBars
  · intro env symbol interval days maxBars r h
    exact fetch_binance_ohlc_days_sorted env symbol interval days maxBars r h
  · intro symbol interval limit payload h
    simp [fetch_binance_ohlc, h]

/-- C6 (witness): a multi-day Binance fetch whose single upstream page is
out of order comes back re-sorted strictly ascending. -/
theorem C6_amended_ordering_witness :
    tsStrictAsc (([⟨1000, 1, 1, 1, 1, 1⟩, ⟨3000, 1, 1, 1, 1, 1⟩], 1) :
      List Bar × Nat).1 = true :=
  C6_amended_ordering.2.1
    (fun _ => BinanceResp.ok
      [[3000000, 1, 1, 1, 1, 1], [1000000, 1, 1, 1, 1, 1]])
    (str "ETH/USD") 720 1 5000 ([⟨1000, 1, 1, 1, 1, 1⟩, ⟨3000, 1, 1, 1, 1, 1⟩], 1)
    rfl

/-- C7: symbol normalization is deterministic and case-insensitive: the
Binance normalizer maps `"BTC/USD"` to `"BTCUSDT"`, and for every input
string the lowercase form normalizes to the same provider-native symbol as
the uppercase form. -/
theorem C7_symbol_normalization :
    to_binance_symbol (str "BTC/USD") = str "BTCUSDT" ∧
    ∀ x : List Nat, to_binance_symbol (pyLower x) = to_binance_symbol (pyUpper x) :=
  ⟨by decide, to_binance_symbol_lower_upper⟩

/-- The full-page environment of the C8 counterexample: every upstream call
returns one (identical) one-bar page. -/
def binanceEnvCE : Nat → BinanceResp := fun _ => BinanceResp.ok [[0, 1, 1, 1, 1, 1]]

/-- The Kraken trace of the C8 counterexample: an empty first page with an
advancing cursor, then a one-bar page, then a stalling cursor. -/
def krakenEnvCE : Nat → KrakenPage
  | 0 => KrakenPage.page (some []) (some 5)
  | 1 => KrakenPage.page (some [[100, 1, 2, 0, 1, 9, 5]]) (some 10)
  | _ => KrakenPage.page (some []) (some 10)

/-- C8 (counterexample): the Binance pagination loop can execute more than
20 page iterations (21 here, with `max_bars = 21000`); and the Kraken loop
does not stop at an empty page — with an advancing cursor it continues and
returns data from a later page (3 pages consumed after an empty first
page). -/
theorem C8_counterexample :
    (fetch_binance_ohlc_days binanceEnvCE (str "ETH/USD") 1 15 21000).map
      Prod.snd = Except.ok 21 ∧
    20 < 21 ∧
    fetch_ohlc_days_kraken krakenEnvCE (str "ETH/USD") 5 1000000 1 5000 =
      ([⟨100, 1, 2, 0, 1, 5⟩], 3) := by
  refine ⟨rfl, by decide, rfl⟩

/-- C8 (amended): both pagination loops always terminate: the Kraken loop
consumes at most 20 pages for every trace; the Binance loop consumes at
most `ceil(min(days * bars_per_day, max_bars) / 1000)` pages — at most 5
at the router's default `max_bars = 5000` — stopping early on an empty
page or when the accumulated count reaches the target. -/
theorem C8_amended_pagination_bounds :
    (∀ (env : Nat → KrakenPage) (symbol : List Nat) (interval now : Int)
        (days maxBars : Nat),
      (fetch_ohlc_days_kraken env symbol interval now days maxBars).2 ≤ 20) ∧
    (∀ (env : Nat → BinanceResp) (symbol : List Nat)
        (interval days maxBars : Nat) (r : List Bar × Nat),
      fetch_binance_ohlc_days env symbol interval days maxBars = Except.ok r →
      r.2 ≤ (min (days * (1440 / interval)) maxBars + 999) / 1000) ∧
    (∀ (env : Nat → BinanceResp) (symbol : List Nat) (interval days : Nat)
        (r : List Bar × Nat),
      fetch_binance_ohlc_days env symbol interval days 5000 = Except.ok r →
      r.2 ≤ 5) := by
  refine ⟨?_, ?_, ?_⟩
  · intro env symbol interval now days maxBars
    exact fetch_ohlc_days_kraken_pages_le env symbol interval now days maxBars
  · intro env symbol interval days maxBars r h
    exact fetch_binance_ohlc_days_pages env symbol interval days maxBars r h
  · intro env symbol interval days r h
    exact fetch_binance_ohlc_days_pages_default env symbol interval days r h

/-- C8 (witness): at the default cap a failing one-page fetch consumed one
page, within the 5-page bound. -/
theorem C8_amended_pagination_bounds_witness :
    ((([] : List Bar), 1) : List Bar × Nat).2 ≤ 5 :=
  C8_amended_pagination_bounds.2.2 (fun _ => BinanceResp.httpError)
    (str "ETH/USD") 1 1 ([], 1) rfl
